import Mathlib

/-!
Shallow embedding of `scripts/copy_datadir.py`: the dataset-directory
synchronization tool (lock ledger, quota planner, copy orchestrator,
sync controller and cleanup).  Python floats (sizes in GB, sampling
factors) are modelled as rationals; datetimes are modelled as minutes
in the proleptic Gregorian calendar, exactly as `datetime` subtraction
behaves on valid dates.  The filesystem state of the target directory
is modelled per path as absent / regular file / symlink; symlink
targets are assumed to exist (the source directory is not mutated
during a run), so `os.path.isfile` holds of links as well.
-/

namespace CopyDatadir

/-! ### Python string primitives used by the script -/

/-- Python `s.startswith(pre)`. -/
def pyStartswith (s pre : String) : Bool :=
  pre.data.isPrefixOf s.data

/-- Python `s.endswith(suf)`. -/
def pyEndswith (s suf : String) : Bool :=
  suf.data.isSuffixOf s.data

/-- Python `s.split(".")` on the character list of a string:
single-character separator split, keeping empty pieces. -/
def splitDots : List Char → List (List Char)
  | [] => [[]]
  | c :: rest =>
    if c = '.' then [] :: splitDots rest
    else
      match splitDots rest with
      | [] => [[c]]
      | p :: ps => (c :: p) :: ps

/-! ### Timestamps: `datetime.strptime(_, "%Y%m%d%H%M")` and subtraction

`strptime` on the canonical 12-digit `YYYYMMDDHHMM` form; the result is
the total number of minutes of the parsed instant (days from the civil
epoch via the standard Gregorian day-count formula), so that
`cur - lock < timedelta(days=1)` becomes an integer comparison with
1440 minutes.  Strings that are not in the canonical 12-digit form are
rejected (the script only ever writes canonical timestamps). -/

/-- Gregorian leap year. -/
def isLeap (y : ℕ) : Bool :=
  y % 4 == 0 && (y % 100 != 0 || y % 400 == 0)

/-- Days in a month of the Gregorian calendar. -/
def daysInMonth (y m : ℕ) : ℕ :=
  if m = 2 then (if isLeap y then 29 else 28)
  else if m = 4 ∨ m = 6 ∨ m = 9 ∨ m = 11 then 30
  else 31

/-- Days since 1970-01-01 of a civil date (standard era/year-of-era
day-count formula for the proleptic Gregorian calendar). -/
def daysFromCivil (y m d : ℕ) : ℤ :=
  let yAdj : ℕ := if m ≤ 2 then y - 1 else y
  let era : ℕ := yAdj / 400
  let yoe : ℕ := yAdj % 400
  let mp : ℕ := if m > 2 then m - 3 else m + 9
  let doy : ℕ := (153 * mp + 2) / 5 + d - 1
  let doe : ℕ := yoe * 365 + yoe / 4 - yoe / 100 + doy
  (era * 146097 + doe : ℤ) - 719468

/-- Numeric value of a list of decimal digit characters. -/
def digitsToNat (cs : List Char) : ℕ :=
  cs.foldl (fun a c => a * 10 + (c.toNat - 48)) 0

/-- `datetime.strptime(s, "%Y%m%d%H%M")`, as total minutes, on a
character list; `none` models the exception on invalid input. -/
def parseTsL (cs : List Char) : Option ℤ :=
  if cs.length = 12 ∧ ∀ c ∈ cs, c.isDigit then
    let y := digitsToNat (cs.take 4)
    let mo := digitsToNat ((cs.drop 4).take 2)
    let d := digitsToNat ((cs.drop 6).take 2)
    let h := digitsToNat ((cs.drop 8).take 2)
    let mi := digitsToNat ((cs.drop 10).take 2)
    if 1 ≤ y ∧ 1 ≤ mo ∧ mo ≤ 12 ∧ 1 ≤ d ∧ d ≤ daysInMonth y mo ∧ h ≤ 23 ∧ mi ≤ 59
    then some (daysFromCivil y mo d * 1440 + (h * 60 + mi : ℕ))
    else none
  else none

/-- `datetime.strptime` on a string. -/
def parseTs (s : String) : Option ℤ :=
  parseTsL s.data

/-- Python `line.strip()` (ASCII whitespace, which is all the script
ever produces around a ledger line). -/
def pyStrip (s : String) : String :=
  ⟨((s.data.dropWhile Char.isWhitespace).reverse.dropWhile Char.isWhitespace).reverse⟩

/-! ### Lock Ledger: `has_locks`

The ledger is the line list of `<targetDir>/.lock`; `none` models a
missing ledger file.  `now` is the run timestamp captured once at
process start (`timestamp` in the script), already parsed to minutes.
The ledger contents are taken as fixed for the duration of one
`has_locks` call; the write-lock wait loop, which re-reads the file on
every attempt, is additionally modelled below over an arbitrary
per-attempt scan function. -/

/-- One iteration's test of the write-lock wait loop:
`line.strip().endswith(".write") and (lock is not None and not
line.strip().startswith(lock))`. -/
def isWriteLine (lock : Option String) (line : String) : Bool :=
  pyEndswith (pyStrip line) ".write" &&
    match lock with
    | none => false
    | some l => !(pyStartswith (pyStrip line) l)

/-- Body of one line's test in the recent-activity loop of `has_locks`:
skip own lines (`lock is not None and line.startswith(lock)`), read
field 1 of `line.split(".")`, parse it (exceptions skip the line), and
compare against `timedelta(days=1)` = 1440 minutes. -/
def isRecentForeign (lock : Option String) (now : ℤ) (line : String) : Bool :=
  let l := pyStrip line
  if (match lock with | some lk => pyStartswith l lk | none => false) then false
  else
    match (splitDots l.data).get? 1 with
    | none => false
    | some ts =>
      match parseTsL ts with
      | none => false
      | some t => decide (now - t < 1440)

/-- The write-lock wait loop of `has_locks`, entered when the foreign
write-lock scan succeeded and `wait_write_lock` is set.  It sleeps
`tries` units, doubles `tries`, stops once `tries > 2 ** 11`, and
otherwise re-scans the file (`scans (attempt+1)`); it returns the total
time slept.  `tries` starts at 1 and doubles until it exceeds 2048, so
the loop body runs at most 12 times; that bound is the structural
`fuel` of the recursion, and `writeWaitAux_fuel` below shows that from
the loop's entry state the fuel is never exhausted (extra fuel does
not change the result). -/
def writeWaitAux (scans : ℕ → List String) (lock : Option String) :
    ℕ → ℕ → ℕ → ℕ → ℕ
  | 0, _, _, slept => slept
  | fuel + 1, attempt, tries, slept =>
    let slept2 := slept + tries
    let tries2 := tries * 2
    if 2048 < tries2 then slept2
    else if (scans (attempt + 1)).any (isWriteLine lock) then
      writeWaitAux scans lock fuel (attempt + 1) tries2 slept2
    else slept2

/-- The write-lock phase of `has_locks`: result is
`(have_write_locks, total time slept)`.  `scans k` is the ledger
contents read at the k-th scan of the file. -/
def writeWait (scans : ℕ → List String) (lock : Option String) (wait : Bool) :
    Bool × ℕ :=
  if (scans 0).any (isWriteLine lock) then
    if wait then (true, writeWaitAux scans lock 12 0 1 0) else (true, 0)
  else (false, 0)

/-- Result of `has_locks`: the pair the Python function returns, plus
the total time spent sleeping in the write-lock wait loop. -/
structure LocksResult where
  read : Bool
  write : Bool
  slept : ℕ
deriving DecidableEq

/-- `has_locks(directory, lock, wait_write_lock)` over a ledger whose
contents do not change during the call (`none` = no `.lock` file). -/
def has_locks (ledger : Option (List String)) (lock : Option String)
    (wait : Bool) (now : ℤ) : LocksResult :=
  match ledger with
  | none => ⟨false, false, 0⟩
  | some lines =>
    let w := writeWait (fun _ => lines) lock wait
    ⟨lines.any (isRecentForeign lock now), w.1, w.2⟩

/-! ### Sync controller pieces: ledger line written by `copy_datasets`,
and `cleanup` -/

/-- The ledger line appended by `copy_datasets`:
`f"{lock}.{timestamp}.write"` (Python renders a `None` lock as the
literal string `"None"`). -/
def lockLine (lock : Option String) (ts kind : String) : String :=
  (match lock with | none => "None" | some s => s) ++ "." ++ ts ++ "." ++ kind

/-- `cleanup(target_dir, prev_lock)`: queries `has_locks` with
`wait_write_lock=True`; refuses when any read or write lock was
reported, otherwise removes the directory tree.  Result is
`(directory deleted, total time slept while waiting)`. -/
def cleanup_run (ledger : Option (List String)) (prevLock : Option String)
    (now : ℤ) : Bool × ℕ :=
  let r := has_locks ledger prevLock true now
  (!(r.read || r.write), r.slept)

/-! ### Quota planner / copy orchestrator: `copy_datasets`

File sizes (`du`, GB) and sampling factors are rationals; `sz` is the
measurement collaborator (`du` is deterministic per path within a run)
and `classify` the dataset-type collaborator
(`list(h5py.File(...).keys())[0]`).  The target directory state is a
map from path to `absent`/`file`/`link`; a link's target is a regular
file of the unchanged source directory, so `os.path.exists` and
`os.path.isfile` (which follow symlinks) hold of links.  `rsync` jobs
are modelled as succeeding (the fallback-to-link path on rsync failure
is outside the planning semantics the claims are about). -/

/-- State of one target path in the target directory. -/
inductive EntryState
  | absent
  | file
  | link
deriving DecidableEq

/-- `os.path.exists` on the target path. -/
def pathExists : EntryState → Bool
  | .absent => false
  | _ => true

/-- `os.path.isfile` on the target path (follows symlinks). -/
def pathIsFile : EntryState → Bool
  | .absent => false
  | _ => true

/-- `os.path.islink` on the target path. -/
def pathIsLink : EntryState → Bool
  | .link => true
  | _ => false

/-- What `copy_datasets` did for one planned file. -/
inductive Decision
  | copyD      -- budget fits: `cur_gb += new_gb`, submit rsync job
  | checkD     -- over budget, full copy present, no read locks: re-verify job
  | linkD      -- over budget, target absent: `ln` (synchronous)
  | skipOver   -- over budget, target present, not re-verified
  | skipRead   -- budget fits, read locks and target is a file: `continue`
deriving DecidableEq

/-- `cur_gb`, the filesystem map of the target directory, and the trace
of per-file decisions in planning order. -/
structure PlanState where
  cur : ℚ
  tgt : String → EntryState
  trace : List (String × ℚ × Decision)

/-- The body of the per-file loop of `copy_datasets` for one file. -/
def planStep (sz : String → ℚ) (maxGb : ℚ) (readLocks : Bool)
    (st : PlanState) (fn : String) : PlanState :=
  let s := st.tgt fn
  let newGb := sz fn
  if st.cur + newGb > maxGb then
    if !(pathExists s) then
      { st with tgt := Function.update st.tgt fn .link,
                trace := st.trace ++ [(fn, newGb, .linkD)] }
    else if !readLocks && pathIsFile s && !(pathIsLink s) then
      { st with trace := st.trace ++ [(fn, newGb, .checkD)] }
    else
      { st with trace := st.trace ++ [(fn, newGb, .skipOver)] }
  else
    if pathIsLink s && !readLocks then
      -- `os.remove(fn_tgt)`, then fall through to the copy
      { cur := st.cur + newGb,
        tgt := Function.update st.tgt fn .file,
        trace := st.trace ++ [(fn, newGb, .copyD)] }
    else if readLocks && pathIsFile s then
      { st with trace := st.trace ++ [(fn, newGb, .skipRead)] }
    else
      { cur := st.cur + newGb,
        tgt := Function.update st.tgt fn .file,
        trace := st.trace ++ [(fn, newGb, .copyD)] }

/-- The planner over a list of files in planning order. -/
def planFiles (sz : String → ℚ) (maxGb : ℚ) (readLocks : Bool)
    (files : List String) (st : PlanState) : PlanState :=
  files.foldl (planStep sz maxGb readLocks) st

/-- One split's group for one dataset type: catalog entries whose file
classifies to `cat`, in catalog order, then
`sorted(key=lambda e: e[1], reverse=True)` — a stable descending sort
by sampling factor. -/
def groupOf (classify : String → String) (entries : List (String × ℚ))
    (cat : String) : List (String × ℚ) :=
  (entries.filter (fun e => classify e.1 = cat)).mergeSort
    (fun a b => decide (b.2 ≤ a.2))

/-- The planning order of one split: groups visited in the fixed
priority order `noise, speech, rir` (any other dataset type is never
visited). -/
def splitOrder (classify : String → String) (entries : List (String × ℚ)) :
    List String :=
  (groupOf classify entries "noise" ++ groupOf classify entries "speech" ++
    groupOf classify entries "rir").map Prod.fst

/-- The dataset catalog: the JSON config's `train`, `valid`, `test`
entry lists `[filename, samplingFactor]`. -/
structure Catalog where
  train : List (String × ℚ)
  valid : List (String × ℚ)
  test : List (String × ℚ)

/-- The full planning order of `copy_datasets`: splits in the fixed
order `train, valid, test`. -/
def catalogOrder (classify : String → String) (c : Catalog) : List String :=
  splitOrder classify c.train ++ splitOrder classify c.valid ++
    splitOrder classify c.test

/-- The planning phase of `copy_datasets`: `initCur` is
`du(target_dir)` measured once at start, `tgt0` the initial target
directory contents, `readLocks` the `have_read_locks` result of the
initial `has_locks` call. -/
def copy_datasets_plan (classify : String → String) (sz : String → ℚ)
    (maxGb : ℚ) (readLocks : Bool) (initCur : ℚ)
    (tgt0 : String → EntryState) (c : Catalog) : PlanState :=
  planFiles sz maxGb readLocks (catalogOrder classify c) ⟨initCur, tgt0, []⟩

/-- Sum of the sizes that were added to `cur_gb`, i.e. of the files
that received a `Copy` decision. -/
def copiedSum (tr : List (String × ℚ × Decision)) : ℚ :=
  ((tr.filter (fun e => e.2.2 = Decision.copyD)).map (fun e => e.2.1)).sum

/-- The target paths submitted to the worker pool (`executor.submit`),
in submission order: the copy jobs and the re-verification jobs. -/
def poolJobs (tr : List (String × ℚ × Decision)) : List String :=
  (tr.filter (fun e => e.2.2 = Decision.copyD ∨ e.2.2 = Decision.checkD)).map
    (fun e => e.1)

/-- The pool submissions made while planning one split, starting from
an arbitrary intermediate controller state (`cur_gb` value and target
directory contents). -/
def splitJobs (classify : String → String) (sz : String → ℚ) (maxGb : ℚ)
    (readLocks : Bool) (cur0 : ℚ) (tgt0 : String → EntryState)
    (entries : List (String × ℚ)) : List String :=
  poolJobs (planFiles sz maxGb readLocks (splitOrder classify entries)
    ⟨cur0, tgt0, []⟩).trace

/-- Total sleep of the wait loop when every re-scan still finds a
foreign write lock: the scan outcome no longer matters, leaving the
pure backoff recurrence. -/
def wwFull : ℕ → ℕ → ℕ → ℕ
  | 0, _, slept => slept
  | fuel + 1, tries, slept =>
    if 2048 < tries * 2 then slept + tries
    else wwFull fuel (tries * 2) (slept + tries)

/-! ## Helper lemmas -/

theorem isPrefixOf_self (l : List Char) : l.isPrefixOf l = true := by
  simp

theorem isPrefixOf_append_extend (p l r : List Char)
    (h : p.isPrefixOf l = true) : p.isPrefixOf (l ++ r) = true := by
  simp at h ⊢
  exact h.trans (List.prefix_append l r)

theorem isSuffixOf_append_self (q l : List Char) :
    q.isSuffixOf (l ++ q) = true := by
  simp

/-- The character list of a ledger line `"<owner>.<ts>.<kind>"`. -/
theorem lockLine_data (lock : Option String) (ts kind : String) :
    (lockLine lock ts kind).data =
      (match lock with | none => "None" | some s => s).data ++
        ('.' :: ts.data ++ ('.' :: kind.data)) := by
  simp [lockLine, String.data_append]

/-- Every ledger line whose kind field is `write` ends in `".write"`. -/
theorem lockLine_endswith_write (lock : Option String) (ts : String) :
    pyEndswith (lockLine lock ts "write") ".write" = true := by
  unfold pyEndswith
  rw [lockLine_data]
  have e : (".write" : String).data = '.' :: "write".data := rfl
  have h : (match lock with | none => "None" | some s => s).data ++
      ('.' :: ts.data ++ ('.' :: "write".data)) =
      ((match lock with | none => "None" | some s => s).data ++
        ('.' :: ts.data)) ++ (".write" : String).data := by
    rw [e]; simp
  rw [h]
  exact isSuffixOf_append_self _ _

/-- A caller id that `startswith`-matches the owner field matches the
whole ledger line. -/
theorem lockLine_startswith_of_owner (X Y ts kind : String)
    (hpre : pyStartswith Y X = true) :
    pyStartswith (lockLine (some Y) ts kind) X = true := by
  unfold pyStartswith at hpre ⊢
  rw [lockLine_data]
  exact isPrefixOf_append_extend _ _ _ hpre

/-! ## Claims -/

/-- C2, counterexample: the ledger holds the single Write line
`"alice.202610120000.write"` (it does end in `".write"`), yet a caller
with an absent (`None`) ownerId gets `have_write_locks = False`: the
guard `lock is not None and not line.startswith(lock)` is false when
`lock is None`, so an anonymous caller treats no Write line as foreign,
refuting the claimed `hasForeignWriteLock = true`. -/
theorem c2_counterexample :
    pyEndswith (pyStrip "alice.202610120000.write") ".write" = true ∧
    (has_locks (some ["alice.202610120000.write"]) none true 29862720).write
      = false := by
  exact ⟨by decide, by decide⟩

/-- C2, amended: a caller with an absent (`None`) ownerId never
reports a foreign write lock, whatever the ledger contains. -/
theorem c2_amended_anonymous_no_write (ledger : Option (List String))
    (wait : Bool) (now : ℤ) :
    (has_locks ledger none wait now).write = false := by
  cases ledger with
  | none => rfl
  | some lines => simp [has_locks, writeWait, isWriteLine]

/-- C10: ownership matching is string-prefix matching on the whole
line.  If the caller's id `X` is a prefix of the owner `Y` (as
`startswith` sees it), a record authored by `Y` is treated as the
caller's own: it is neither a foreign write lock nor recent activity,
and no waiting happens. -/
theorem c10_owner_initial_segment (X Y ts kind : String) (wait : Bool)
    (now : ℤ) (hpre : pyStartswith Y X = true)
    (hstrip : pyStrip (lockLine (some Y) ts kind) = lockLine (some Y) ts kind) :
    has_locks (some [lockLine (some Y) ts kind]) (some X) wait now
      = ⟨false, false, 0⟩ := by
  have hline := lockLine_startswith_of_owner X Y ts kind hpre
  simp [has_locks, writeWait, isWriteLine, isRecentForeign, hstrip, hline]

/-- C10, witness: caller `"job1"`, record owner `"job10"`. -/
theorem c10_witness :
    pyStartswith "job10" "job1" = true ∧
    pyStrip (lockLine (some "job10") "202610120000" "write")
      = lockLine (some "job10") "202610120000" "write" ∧
    has_locks (some [lockLine (some "job10") "202610120000" "write"])
      (some "job1") true 29862720 = ⟨false, false, 0⟩ :=
  ⟨by decide, by decide,
    c10_owner_initial_segment "job1" "job10" "202610120000" "write" true
      29862720 (by decide) (by decide)⟩

/-- C9: with `lock = None`, `copy_datasets` appends the ledger line
`f"{lock}.{timestamp}.write"`, i.e. the literal `"None.<ts>.write"`
(it starts with `"None."` and ends with `".write"`), and any
subsequently querying caller whose id does not prefix-match that line
reports a foreign write lock. -/
theorem c9_none_lock_foreign (ts y : String) (L : List String) (wait : Bool)
    (now : ℤ)
    (hstrip : pyStrip (lockLine none ts "write") = lockLine none ts "write")
    (hny : pyStartswith (lockLine none ts "write") y = false) :
    pyStartswith (lockLine none ts "write") "None." = true ∧
    pyEndswith (lockLine none ts "write") ".write" = true ∧
    (has_locks (some (L ++ [lockLine none ts "write"])) (some y) wait now).write
      = true := by
  refine ⟨?_, lockLine_endswith_write none ts, ?_⟩
  · unfold pyStartswith
    rw [lockLine_data]
    show ("None." : String).data.isPrefixOf
      (("None" : String).data ++ ('.' :: (ts.data ++ ('.' :: "write".data)))) = true
    have e : ("None" : String).data ++
        ('.' :: (ts.data ++ ('.' :: "write".data))) =
        ("None." : String).data ++ (ts.data ++ ('.' :: "write".data)) := by
      have e2 : ("None." : String).data = ("None" : String).data ++ ['.'] := rfl
      rw [e2]; simp
    rw [e]
    exact isPrefixOf_append_extend _ _ _ (isPrefixOf_self _)
  · have hw : isWriteLine (some y) (lockLine none ts "write") = true := by
      simp [isWriteLine, hstrip, hny, lockLine_endswith_write none ts]
    have hany : ((L ++ [lockLine none ts "write"]).any
        (isWriteLine (some y))) = true := by
      simp [List.any_append, hw]
    simp only [has_locks, writeWait, hany]
    cases wait <;> simp

/-- C9, witness. -/
theorem c9_witness :
    pyStrip (lockLine none "202610120000" "write")
      = lockLine none "202610120000" "write" ∧
    pyStartswith (lockLine none "202610120000" "write") "job1" = false ∧
    (pyStartswith (lockLine none "202610120000" "write") "None." = true ∧
     pyEndswith (lockLine none "202610120000" "write") ".write" = true ∧
     (has_locks (some ([] ++ [lockLine none "202610120000" "write"]))
       (some "job1") true 29862720).write = true) :=
  ⟨by decide, by decide,
    c9_none_lock_foreign "202610120000" "job1" [] true 29862720 (by decide)
      (by decide)⟩

/-- Bound on the wait loop: from any entry state with
`1 ≤ tries ≤ 2048`, the additional sleep is at most `4096 - tries`. -/
theorem writeWaitAux_le (scans : ℕ → List String) (lock : Option String) :
    ∀ fuel attempt tries slept : ℕ, 1 ≤ tries → tries ≤ 2048 →
      writeWaitAux scans lock fuel attempt tries slept ≤ slept + (4096 - tries) := by
  intro fuel
  induction fuel with
  | zero =>
    intro attempt tries slept h1 h2
    simp only [writeWaitAux]
    omega
  | succ fuel ih =>
    intro attempt tries slept h1 h2
    simp only [writeWaitAux]
    split
    · omega
    · split
      · calc writeWaitAux scans lock fuel (attempt + 1) (tries * 2) (slept + tries)
            ≤ (slept + tries) + (4096 - tries * 2) :=
              ih (attempt + 1) (tries * 2) (slept + tries) (by omega) (by omega)
          _ ≤ slept + (4096 - tries) := by omega
      · omega

/-- Fuel adequacy: from any state whose `tries` value will pass the
cap check within the given fuel (in particular from the loop entry
state `tries = 1` with fuel 12, since `1 * 2 ^ 12 > 2048`), extra fuel
does not change the result — i.e. the fuel-exhausted branch of
`writeWaitAux` is never taken from the loop's entry state. -/
theorem writeWaitAux_fuel (scans : ℕ → List String) (lock : Option String) :
    ∀ fuel attempt tries slept : ℕ, 1 ≤ fuel → 2048 < tries * 2 ^ fuel →
      writeWaitAux scans lock (fuel + 1) attempt tries slept
        = writeWaitAux scans lock fuel attempt tries slept := by
  intro fuel
  induction fuel with
  | zero => intro attempt tries slept h1 _; omega
  | succ fuel ih =>
    intro attempt tries slept h1 h2
    by_cases hcap : 2048 < tries * 2
    · simp only [writeWaitAux, if_pos hcap]
    · simp only [writeWaitAux, if_neg hcap]
      split
      · cases fuel with
        | zero =>
          exfalso
          have e : tries * 2 ^ (0 + 1) = tries * 2 := by ring
          rw [e] at h2
          exact hcap h2
        | succ f =>
          have e : tries * 2 ^ (f + 1 + 1) = tries * 2 * 2 ^ (f + 1) := by ring
          rw [e] at h2
          exact ih (attempt + 1) (tries * 2) (slept + tries) (by omega) h2
      · rfl

/-- When every re-scan still sees a foreign write lock, the wait loop
reduces to the pure backoff recurrence `wwFull`. -/
theorem writeWaitAux_allLocked (scans : ℕ → List String) (lock : Option String)
    (h : ∀ k, ((scans k).any (isWriteLine lock)) = true) :
    ∀ fuel attempt tries slept : ℕ,
      writeWaitAux scans lock fuel attempt tries slept = wwFull fuel tries slept := by
  intro fuel
  induction fuel with
  | zero => intro attempt tries slept; rfl
  | succ fuel ih =>
    intro attempt tries slept
    simp only [writeWaitAux, wwFull, h]
    split
    · rfl
    · exact ih (attempt + 1) (tries * 2) (slept + tries)

/-- The full backoff: sleeps `1 + 2 + ... + 2048`. -/
theorem wwFull_12 : wwFull 12 1 0 = 4095 := by decide

/-- C7: the write-lock wait loop always terminates with a bounded total
sleep.  Whatever the per-scan ledger contents, owner id and
`wait_write_lock` flag, the total sleep is at most `2 ^ 12 - 1 = 4095`
time units (seed 1, doubling each retry, cap once `tries` exceeds
`2 ^ 11`); and when every re-scan still finds a foreign write lock the
loop gives up — returning, not failing — after exactly that total. -/
theorem c7_wait_loop_bounded :
    (∀ (scans : ℕ → List String) (lock : Option String) (wait : Bool),
        (writeWait scans lock wait).2 ≤ 2 ^ 12 - 1) ∧
    (∀ (scans : ℕ → List String) (lock : Option String),
        (∀ k, ((scans k).any (isWriteLine lock)) = true) →
        writeWait scans lock true = (true, 2 ^ 12 - 1)) := by
  constructor
  · intro scans lock wait
    unfold writeWait
    split
    · split
      · have := writeWaitAux_le scans lock 12 0 1 0 (by omega) (by omega)
        simpa using this
      · simp
    · simp
  · intro scans lock h
    unfold writeWait
    rw [h 0]
    simp only [if_true]
    rw [writeWaitAux_allLocked scans lock h 12 0 1 0, wwFull_12]
    norm_num

/-- C7, witness for the persistent-lock clause. -/
theorem c7_witness :
    (∀ k : ℕ, (((fun _ => ["a.202610120000.write"] : ℕ → List String) k).any
        (isWriteLine (some "b"))) = true) ∧
    writeWait (fun _ => ["a.202610120000.write"]) (some "b") true
      = (true, 2 ^ 12 - 1) :=
  ⟨by
    intro k
    show (["a.202610120000.write"] : List String).any
      (isWriteLine (some "b")) = true
    decide,
   c7_wait_loop_bounded.2 (fun _ => ["a.202610120000.write"]) (some "b")
      (by
        intro k
        show (["a.202610120000.write"] : List String).any
          (isWriteLine (some "b")) = true
        decide)⟩

/-- C4, counterexample: `cleanup` passes `wait_write_lock=True` to
`has_locks`.  With a foreign Write record present it does not refuse
immediately: it first sits through the whole exponential-backoff wait
(4095 time units of sleep), and only then refuses. -/
theorem c4_counterexample :
    cleanup_run (some ["alice.202610120000.write"]) (some "bob") 29862720
      = (false, 4095) := by
  decide

/-- C4, amended: when the ledger holds a foreign Write record (still
present at every re-scan), `cleanup` blocks through the full
exponential-backoff wait of 4095 time units and then refuses
(non-fatally) rather than deleting. -/
theorem c4_amended_cleanup_waits (ledger : List String)
    (prevLock : Option String) (now : ℤ) (line : String)
    (hmem : line ∈ ledger) (hw : isWriteLine prevLock line = true) :
    cleanup_run (some ledger) prevLock now = (false, 4095) := by
  have hany : (ledger.any (isWriteLine prevLock)) = true :=
    List.any_eq_true.2 ⟨line, hmem, hw⟩
  have hC : ∀ k : ℕ, (((fun _ => ledger : ℕ → List String) k).any
      (isWriteLine prevLock)) = true := fun _ => hany
  unfold cleanup_run has_locks
  simp only [writeWait, hany, if_true]
  rw [writeWaitAux_allLocked _ _ hC 12 0 1 0, wwFull_12]
  simp

/-- C4, witness. -/
theorem c4_witness :
    ("dave.202501010000.write" ∈ (["dave.202501010000.write"] : List String)) ∧
    isWriteLine (some "carol") "dave.202501010000.write" = true ∧
    cleanup_run (some ["dave.202501010000.write"]) (some "carol") 29862720
      = (false, 4095) :=
  ⟨by decide, by decide,
    c4_amended_cleanup_waits ["dave.202501010000.write"] (some "carol")
      29862720 "dave.202501010000.write" (by decide) (by decide)⟩

/-- C3, counterexample: the ledger's only record,
`"alice.190001010000.write"`, is stale (not recent activity for a
caller `"bob"` at run timestamp 2026-10-12 00:00), yet `cleanup` does
not delete the directory: foreign Write records block cleanup
regardless of their age, refuting the claim's "every record stale ⟹
delete". -/
theorem c3_counterexample :
    isRecentForeign (some "bob") 29862720 "alice.190001010000.write" = false ∧
    (cleanup_run (some ["alice.190001010000.write"]) (some "bob")
      29862720).1 = false := by
  exact ⟨by decide, by decide⟩

/-- C3, amended: (1) if any ledger line is recent foreign activity —
in particular a foreign Read record timestamped within 24 hours —
`cleanup` does not delete; (2) if no line is a foreign Write record
and no line is recent foreign activity (e.g. all records are stale
Read records), `cleanup` deletes without waiting; (3) a missing ledger
file also leads to deletion. -/
theorem c3_amended_cleanup :
    (∀ (ledger : List String) (prevLock : Option String) (now : ℤ)
        (line : String), line ∈ ledger →
        isRecentForeign prevLock now line = true →
        (cleanup_run (some ledger) prevLock now).1 = false) ∧
    (∀ (ledger : List String) (prevLock : Option String) (now : ℤ),
        (∀ line ∈ ledger, isWriteLine prevLock line = false) →
        (∀ line ∈ ledger, isRecentForeign prevLock now line = false) →
        cleanup_run (some ledger) prevLock now = (true, 0)) ∧
    (∀ (prevLock : Option String) (now : ℤ),
        cleanup_run none prevLock now = (true, 0)) := by
  refine ⟨?_, ?_, fun _ _ => rfl⟩
  · intro ledger prevLock now line hmem hr
    have hany : (ledger.any (isRecentForeign prevLock now)) = true :=
      List.any_eq_true.2 ⟨line, hmem, hr⟩
    simp [cleanup_run, has_locks, hany]
  · intro ledger prevLock now hw hr
    have hw2 : (ledger.any (isWriteLine prevLock)) = false := by
      simp only [List.any_eq_false]
      intro x hx
      simp [hw x hx]
    have hr2 : (ledger.any (isRecentForeign prevLock now)) = false := by
      simp only [List.any_eq_false]
      intro x hx
      simp [hr x hx]
    simp [cleanup_run, has_locks, writeWait, hw2, hr2]

/-- C3, witness: a recent foreign Read blocks deletion; an all-stale
ledger (one old Read record) is deleted. -/
theorem c3_witness :
    (("alice.202610112300.read" ∈ (["alice.202610112300.read"] : List String)) ∧
     isRecentForeign (some "bob") 29862720 "alice.202610112300.read" = true ∧
     (cleanup_run (some ["alice.202610112300.read"]) (some "bob")
       29862720).1 = false) ∧
    ((∀ line ∈ (["alice.190001010000.read"] : List String),
        isWriteLine (some "bob") line = false) ∧
     (∀ line ∈ (["alice.190001010000.read"] : List String),
        isRecentForeign (some "bob") 29862720 line = false) ∧
     cleanup_run (some ["alice.190001010000.read"]) (some "bob") 29862720
       = (true, 0)) :=
  ⟨⟨by decide, by decide,
     c3_amended_cleanup.1 ["alice.202610112300.read"] (some "bob") 29862720
       "alice.202610112300.read" (by decide) (by decide)⟩,
   ⟨by decide, by decide,
     c3_amended_cleanup.2.1 ["alice.190001010000.read"] (some "bob") 29862720
       (by decide) (by decide)⟩⟩

/-! ## Planner lemmas -/

theorem planFiles_nil (sz : String → ℚ) (B : ℚ) (rl : Bool) (st : PlanState) :
    planFiles sz B rl [] st = st := rfl

theorem planFiles_cons (sz : String → ℚ) (B : ℚ) (rl : Bool) (fn : String)
    (l : List String) (st : PlanState) :
    planFiles sz B rl (fn :: l) st
      = planFiles sz B rl l (planStep sz B rl st fn) := rfl

theorem planFiles_append (sz : String → ℚ) (B : ℚ) (rl : Bool)
    (l1 l2 : List String) (st : PlanState) :
    planFiles sz B rl (l1 ++ l2) st
      = planFiles sz B rl l2 (planFiles sz B rl l1 st) := by
  simp [planFiles]

theorem copiedSum_nil : copiedSum [] = 0 := rfl

theorem copiedSum_append_entry (t : List (String × ℚ × Decision))
    (fn : String) (q : ℚ) (d : Decision) :
    copiedSum (t ++ [(fn, q, d)])
      = copiedSum t + (if d = Decision.copyD then q else 0) := by
  simp only [copiedSum, List.filter_append, List.map_append, List.sum_append]
  cases d <;> simp

/-- Case analysis of one planner step: either the step does not touch
`cur_gb` and records a non-`Copy` decision, or the budget check passed
(`¬ cur_gb + new_gb > max_gb`), `cur_gb` grows by the file's size, the
target path becomes a file, and a `Copy` decision is recorded. -/
theorem planStep_cases (sz : String → ℚ) (B : ℚ) (rl : Bool)
    (st : PlanState) (fn : String) :
    (∃ d tg, d ≠ Decision.copyD ∧
        planStep sz B rl st fn = ⟨st.cur, tg, st.trace ++ [(fn, sz fn, d)]⟩) ∨
    (¬ (st.cur + sz fn > B) ∧ planStep sz B rl st fn
        = ⟨st.cur + sz fn, Function.update st.tgt fn EntryState.file,
            st.trace ++ [(fn, sz fn, Decision.copyD)]⟩) := by
  unfold planStep
  dsimp only
  split_ifs with hb hex hchk hlink hrd
  · exact Or.inl ⟨Decision.linkD, _, by decide, rfl⟩
  · exact Or.inl ⟨Decision.checkD, _, by decide, rfl⟩
  · exact Or.inl ⟨Decision.skipOver, _, by decide, rfl⟩
  · exact Or.inr ⟨hb, rfl⟩
  · exact Or.inl ⟨Decision.skipRead, _, by decide, rfl⟩
  · exact Or.inr ⟨hb, rfl⟩

/-- One planner step preserves the budget invariant: `cur_gb` is the
initial measured size plus everything committed to `Copy` so far, and
once anything was committed, `cur_gb` stays at most the budget. -/
theorem planStep_inv (sz : String → ℚ) (B init : ℚ) (rl : Bool)
    (st : PlanState) (fn : String)
    (h1 : st.cur = init + copiedSum st.trace)
    (h2 : copiedSum st.trace = 0 ∨ st.cur ≤ B) :
    (planStep sz B rl st fn).cur
        = init + copiedSum (planStep sz B rl st fn).trace ∧
    (copiedSum (planStep sz B rl st fn).trace = 0
        ∨ (planStep sz B rl st fn).cur ≤ B) := by
  rcases planStep_cases sz B rl st fn with ⟨d, tg, hd, he⟩ | ⟨hb, he⟩
  · rw [he]
    simp only [copiedSum_append_entry, if_neg hd, add_zero]
    exact ⟨h1, h2⟩
  · rw [he]
    push_neg at hb
    refine ⟨?_, Or.inr ?_⟩ <;> simp [copiedSum_append_entry] <;> linarith

theorem planFiles_inv (sz : String → ℚ) (B init : ℚ) (rl : Bool) :
    ∀ (l : List String) (st : PlanState),
      st.cur = init + copiedSum st.trace →
      (copiedSum st.trace = 0 ∨ st.cur ≤ B) →
      (planFiles sz B rl l st).cur
          = init + copiedSum (planFiles sz B rl l st).trace ∧
      (copiedSum (planFiles sz B rl l st).trace = 0
          ∨ (planFiles sz B rl l st).cur ≤ B) := by
  intro l
  induction l with
  | nil => intro st h1 h2; exact ⟨h1, h2⟩
  | cons fn l ih =>
    intro st h1 h2
    rw [planFiles_cons]
    obtain ⟨g1, g2⟩ := planStep_inv sz B init rl st fn h1 h2
    exact ih (planStep sz B rl st fn) g1 g2

/-- C1: quota invariant.  After planning a full catalog against budget
`maxGb` from a nonnegative initial size, with nonnegative sizes and a
nonnegative budget, the sum of the sizes of the files that received a
`Copy` decision (the sizes added to the running `cur_gb`) is at most
the budget; the check is the strict `cur_gb + new_gb > max_gb`. -/
theorem c1_quota_invariant (classify : String → String) (sz : String → ℚ)
    (maxGb init : ℚ) (rl : Bool) (tgt0 : String → EntryState) (c : Catalog)
    (hinit : 0 ≤ init) (hmax : 0 ≤ maxGb) (hsz : ∀ fn, 0 ≤ sz fn) :
    copiedSum (copy_datasets_plan classify sz maxGb rl init tgt0 c).trace
      ≤ maxGb := by
  obtain ⟨h1, h2⟩ := planFiles_inv sz maxGb init rl (catalogOrder classify c)
    ⟨init, tgt0, []⟩ (by simp [copiedSum_nil]) (Or.inl copiedSum_nil)
  unfold copy_datasets_plan
  rcases h2 with h0 | hle
  · rw [h0]; exact hmax
  · linarith

/-- C1, witness: the spec's end-to-end scenario — `noiseA.bin` (3 GB,
copied) and `speechA.bin` (3 GB, linked) against a 5 GB budget. -/
theorem c1_witness :
    (0 : ℚ) ≤ 0 ∧ (0 : ℚ) ≤ 5 ∧
    (∀ fn : String, (0 : ℚ) ≤ (fun _ => (3 : ℚ)) fn) ∧
    copiedSum (copy_datasets_plan
      (fun fn => if fn = "noiseA.bin" then "noise" else "speech")
      (fun _ => 3) 5 false 0 (fun _ => EntryState.absent)
      ⟨[("noiseA.bin", 2), ("speechA.bin", 5)], [], []⟩).trace ≤ 5 :=
  ⟨by norm_num, by norm_num, fun _ => by norm_num,
    c1_quota_invariant
      (fun fn => if fn = "noiseA.bin" then "noise" else "speech")
      (fun _ => 3) 5 0 false (fun _ => EntryState.absent)
      ⟨[("noiseA.bin", 2), ("speechA.bin", 5)], [], []⟩
      (by norm_num) (by norm_num) (fun _ => by norm_num)⟩

/-- Each planner step appends exactly one trace entry, for the planned
file. -/
theorem planStep_trace (sz : String → ℚ) (B : ℚ) (rl : Bool)
    (st : PlanState) (fn : String) :
    ∃ e : String × ℚ × Decision,
      (planStep sz B rl st fn).trace = st.trace ++ [e] ∧ e.1 = fn := by
  rcases planStep_cases sz B rl st fn with ⟨d, tg, _, he⟩ | ⟨_, he⟩ <;>
    exact ⟨_, by rw [he], rfl⟩

/-- The planner's trace grows by one entry per planned file, in
planning order. -/
theorem planFiles_trace_delta (sz : String → ℚ) (B : ℚ) (rl : Bool) :
    ∀ (l : List String) (st : PlanState),
      ∃ Δ : List (String × ℚ × Decision),
        (planFiles sz B rl l st).trace = st.trace ++ Δ ∧
        Δ.map Prod.fst = l := by
  intro l
  induction l with
  | nil => intro st; exact ⟨[], by simp [planFiles_nil]⟩
  | cons fn l ih =>
    intro st
    obtain ⟨e, he, hfn⟩ := planStep_trace sz B rl st fn
    obtain ⟨Δ, hΔ, hmap⟩ := ih (planStep sz B rl st fn)
    refine ⟨e :: Δ, ?_, by simp [hmap, hfn]⟩
    rw [planFiles_cons, hΔ, he]
    simp

theorem poolJobs_append (t1 t2 : List (String × ℚ × Decision)) :
    poolJobs (t1 ++ t2) = poolJobs t1 ++ poolJobs t2 := by
  simp [poolJobs]

/-- A pool submission is one of the planned paths. -/
theorem mem_of_mem_poolJobs (x : String) (Δ : List (String × ℚ × Decision))
    (h : x ∈ poolJobs Δ) : x ∈ Δ.map Prod.fst := by
  simp only [poolJobs, List.mem_map] at h
  obtain ⟨e, he, rfl⟩ := h
  exact List.mem_map_of_mem Prod.fst (List.mem_of_mem_filter he)

/-- Membership in a category group means the classifier put the file
in that category. -/
theorem classify_of_mem_groupOf (classify : String → String)
    (entries : List (String × ℚ)) (cat x : String)
    (h : x ∈ (groupOf classify entries cat).map Prod.fst) :
    classify x = cat := by
  simp only [groupOf, List.mem_map] at h
  obtain ⟨e, he, rfl⟩ := h
  have he2 : e ∈ entries.filter (fun e => classify e.1 = cat) :=
    (List.mergeSort_perm (entries.filter (fun e => classify e.1 = cat))
      (fun a b => decide (b.2 ≤ a.2))).mem_iff.1 he
  simpa using List.of_mem_filter he2

/-- If a list splits as `A ++ C` with `x` only in `A` and `y` only in
`C`, every index of `x` is before every index of `y`. -/
theorem index_lt_of_separated {α : Type} (L A C : List α) (hL : L = A ++ C)
    (x y : α) (i j : ℕ) (hi : i < L.length) (hj : j < L.length)
    (hx : L.get ⟨i, hi⟩ = x) (hy : L.get ⟨j, hj⟩ = y)
    (hxC : x ∉ C) (hyA : y ∉ A) : i < j := by
  subst hL
  have hiA : i < A.length := by
    by_contra hc
    push_neg at hc
    have hmem : (A ++ C).get ⟨i, hi⟩ ∈ C := by
      rw [List.get_eq_getElem, List.getElem_append_right hc]
      exact List.getElem_mem _
    rw [hx] at hmem
    exact hxC hmem
  have hjA : ¬ j < A.length := by
    intro hc
    have hmem : (A ++ C).get ⟨j, hj⟩ ∈ A := by
      rw [List.get_eq_getElem, List.getElem_append_left hc]
      exact List.getElem_mem _
    rw [hy] at hmem
    exact hyA hmem
  omega

/-- C5: within one split, all pool submissions for `noise` files come
before all pool submissions for `speech` files: the groups are visited
in the fixed order `noise, speech, rir`, and jobs are submitted in
planning order.  If both files got their jobs submitted (in particular
when both were assignable under the budget and copied), the noise
file's position in the submission order is strictly before the speech
file's. -/
theorem c5_noise_before_speech (classify : String → String)
    (sz : String → ℚ) (maxGb cur0 : ℚ) (rl : Bool)
    (tgt0 : String → EntryState) (entries : List (String × ℚ))
    (fn1 fn2 : String) (i j : ℕ)
    (h1 : classify fn1 = "noise") (h2 : classify fn2 = "speech")
    (hi : i < (splitJobs classify sz maxGb rl cur0 tgt0 entries).length)
    (hj : j < (splitJobs classify sz maxGb rl cur0 tgt0 entries).length)
    (hgi : (splitJobs classify sz maxGb rl cur0 tgt0 entries).get ⟨i, hi⟩ = fn1)
    (hgj : (splitJobs classify sz maxGb rl cur0 tgt0 entries).get ⟨j, hj⟩ = fn2) :
    i < j := by
  have horder : splitOrder classify entries
      = (groupOf classify entries "noise").map Prod.fst ++
        ((groupOf classify entries "speech").map Prod.fst ++
          (groupOf classify entries "rir").map Prod.fst) := by
    simp [splitOrder]
  obtain ⟨ΔN, hN, hNmap⟩ := planFiles_trace_delta sz maxGb rl
    ((groupOf classify entries "noise").map Prod.fst)
    ⟨cur0, tgt0, []⟩
  obtain ⟨ΔSR, hSR, hSRmap⟩ := planFiles_trace_delta sz maxGb rl
    ((groupOf classify entries "speech").map Prod.fst ++
      (groupOf classify entries "rir").map Prod.fst)
    (planFiles sz maxGb rl ((groupOf classify entries "noise").map Prod.fst)
      ⟨cur0, tgt0, []⟩)
  have hsplit : splitJobs classify sz maxGb rl cur0 tgt0 entries
      = poolJobs ΔN ++ poolJobs ΔSR := by
    rw [splitJobs, horder, planFiles_append, hSR, hN]
    simp [poolJobs_append]
  refine index_lt_of_separated _ (poolJobs ΔN) (poolJobs ΔSR) hsplit fn1 fn2
    i j hi hj hgi hgj ?_ ?_
  · intro hmem
    have := mem_of_mem_poolJobs fn1 ΔSR hmem
    rw [hSRmap] at this
    rcases List.mem_append.1 this with hS | hR
    · rw [classify_of_mem_groupOf classify entries "speech" fn1 hS] at h1
      exact absurd h1 (by decide)
    · rw [classify_of_mem_groupOf classify entries "rir" fn1 hR] at h1
      exact absurd h1 (by decide)
  · intro hmem
    have := mem_of_mem_poolJobs fn2 ΔN hmem
    rw [hNmap] at this
    rw [classify_of_mem_groupOf classify entries "noise" fn2 this] at h2
    exact absurd h2 (by decide)

unseal Rat.add List.merge List.mergeSort in
/-- C5, witness: a split whose catalog lists the speech file first;
the planner still submits the noise file's job first. -/
theorem c5_witness :
    splitJobs (fun fn => if fn = "n.h5" then "noise" else "speech")
      (fun _ => 1) 100 false 0 (fun _ => EntryState.absent)
      [("s.h5", 1), ("n.h5", 1)] = ["n.h5", "s.h5"] ∧ (0 : ℕ) < 1 :=
  ⟨by decide,
    c5_noise_before_speech (fun fn => if fn = "n.h5" then "noise" else "speech")
      (fun _ => 1) 100 0 false (fun _ => EntryState.absent)
      [("s.h5", 1), ("n.h5", 1)] "n.h5" "s.h5" 0 1 (by decide) (by decide)
      (by decide) (by decide) (by decide) (by decide)⟩

unseal Rat.add List.merge List.mergeSort in
/-- C6, counterexample: a catalog whose `train` split references the
same filename twice.  The planner plans the path twice and submits two
copy jobs for it, refuting "jobs for a given path are never submitted
twice in one run". -/
theorem c6_counterexample :
    (poolJobs (copy_datasets_plan (fun _ => "noise") (fun _ => 1) 100 false 0
      (fun _ => EntryState.absent)
      ⟨[("a.h5", 1), ("a.h5", 1)], [], []⟩).trace).count "a.h5" = 2 := by
  decide

/-- C6, amended: when no target path occurs twice in the planning
order — i.e. no filename is referenced twice across the catalog's
splits (within the visited categories) — every path is submitted to
the pool at most once. -/
theorem c6_amended_unique_jobs (classify : String → String)
    (sz : String → ℚ) (maxGb init : ℚ) (rl : Bool)
    (tgt0 : String → EntryState) (c : Catalog)
    (h : (catalogOrder classify c).Nodup) :
    (poolJobs (copy_datasets_plan classify sz maxGb rl init tgt0
      c).trace).Nodup := by
  obtain ⟨Δ, hΔ, hmap⟩ := planFiles_trace_delta sz maxGb rl
    (catalogOrder classify c) ⟨init, tgt0, []⟩
  have hΔ2 : (copy_datasets_plan classify sz maxGb rl init tgt0 c).trace = Δ := by
    rw [copy_datasets_plan, hΔ]; rfl
  rw [hΔ2]
  have hsub : List.Sublist (poolJobs Δ) (Δ.map Prod.fst) := by
    simpa [poolJobs] using
      (List.filter_sublist (l := Δ)
        (p := fun e => decide (e.2.2 = Decision.copyD ∨ e.2.2 = Decision.checkD))).map
        Prod.fst
  rw [hmap] at hsub
  exact List.Nodup.sublist hsub h

unseal Rat.add List.merge List.mergeSort in
/-- C6, witness for the amended claim: two distinct filenames. -/
theorem c6_witness :
    (catalogOrder (fun _ => "noise")
      ⟨[("a.h5", 1), ("b.h5", 2)], [], []⟩).Nodup ∧
    (poolJobs (copy_datasets_plan (fun _ => "noise") (fun _ => 1) 100 false 0
      (fun _ => EntryState.absent)
      ⟨[("a.h5", 1), ("b.h5", 2)], [], []⟩).trace).Nodup :=
  ⟨by decide,
    c6_amended_unique_jobs (fun _ => "noise") (fun _ => 1) 100 0 false
      (fun _ => EntryState.absent) ⟨[("a.h5", 1), ("b.h5", 2)], [], []⟩
      (by decide)⟩

/-- When the budget check passes and there are no read locks, the step
is exactly a `Copy`: `cur_gb` grows, the path becomes a file. -/
theorem planStep_copy_of_fits (sz : String → ℚ) (B : ℚ) (st : PlanState)
    (fn : String) (h : ¬ (st.cur + sz fn > B)) :
    planStep sz B false st fn
      = ⟨st.cur + sz fn, Function.update st.tgt fn EntryState.file,
          st.trace ++ [(fn, sz fn, Decision.copyD)]⟩ := by
  unfold planStep
  dsimp only
  rw [if_neg h]
  split_ifs with h1 h2
  · rfl
  · simp at h2
  · rfl

/-- With no read locks and a budget that fits the whole remaining
order, the planner copies every file: afterwards every planned path is
a regular file and all other paths are untouched. -/
theorem planFiles_all_copied (sz : String → ℚ) (B : ℚ) :
    ∀ (l : List String) (st : PlanState),
      st.cur + (l.map sz).sum ≤ B →
      (∀ fn ∈ l, 0 ≤ sz fn) →
      ∀ x, (planFiles sz B false l st).tgt x
        = if x ∈ l then EntryState.file else st.tgt x := by
  intro l
  induction l with
  | nil => intro st _ _ x; simp [planFiles_nil]
  | cons fn l ih =>
    intro st hfit hsz x
    have hsum : 0 ≤ (l.map sz).sum := by
      apply List.sum_nonneg
      intro q hq
      simp only [List.mem_map] at hq
      obtain ⟨g, hg, rfl⟩ := hq
      exact hsz g (List.mem_cons_of_mem _ hg)
    have hfit1 : ¬ (st.cur + sz fn > B) := by
      push_neg
      have : st.cur + (sz fn + (l.map sz).sum) ≤ B := by simpa using hfit
      linarith
    rw [planFiles_cons, planStep_copy_of_fits sz B st fn hfit1]
    have ih2 := ih ⟨st.cur + sz fn, Function.update st.tgt fn EntryState.file,
        st.trace ++ [(fn, sz fn, Decision.copyD)]⟩
      (by
        show st.cur + sz fn + (l.map sz).sum ≤ B
        have h2 : st.cur + (sz fn + (l.map sz).sum) ≤ B := by simpa using hfit
        linarith)
      (fun g hg => hsz g (List.mem_cons_of_mem _ hg)) x
    rw [ih2]
    by_cases hxl : x ∈ l
    · simp [hxl]
    · by_cases hxf : x = fn
      · subst hxf
        simp [hxl, Function.update_same]
      · simp [hxl, hxf, Function.update_apply]

/-- A run over paths that are already all regular files never changes
the target directory contents (re-verification copies write the same
file; over-budget paths exist so no link is made). -/
theorem planStep_tgt_of_file (sz : String → ℚ) (B : ℚ) (rl : Bool)
    (st : PlanState) (fn : String) (hf : st.tgt fn = EntryState.file) :
    (planStep sz B rl st fn).tgt = st.tgt := by
  unfold planStep
  dsimp only
  rw [hf]
  simp only [pathExists, pathIsFile, pathIsLink, Bool.not_true,
    Bool.false_and, Bool.and_true, Bool.and_false]
  split_ifs <;> first
    | rfl
    | (rw [← hf]; exact Function.update_eq_self fn st.tgt)
    | simp_all

theorem planFiles_tgt_of_files (sz : String → ℚ) (B : ℚ) (rl : Bool) :
    ∀ (l : List String) (st : PlanState),
      (∀ fn ∈ l, st.tgt fn = EntryState.file) →
      (planFiles sz B rl l st).tgt = st.tgt := by
  intro l
  induction l with
  | nil => intro st _; rfl
  | cons fn l ih =>
    intro st hall
    have hf : st.tgt fn = EntryState.file := hall fn (by simp)
    have htgt := planStep_tgt_of_file sz B rl st fn hf
    rw [planFiles_cons, ih (planStep sz B rl st fn)
      (fun g hg => by rw [htgt]; exact hall g (List.mem_cons_of_mem _ hg))]
    exact htgt

/-- C8: idempotence.  With an unchanged catalog, classifier and sizes,
a first run with no read locks and a budget that fits the whole
planning order makes every planned path a regular file; a second run
over the same catalog — whatever `du` now measures, whatever the
read-lock state, same budget — leaves the target directory's contents
exactly as the first run left them (re-verification copies rewrite
identical content and are the only jobs it may issue). -/
theorem c8_idempotent_second_run (classify : String → String)
    (sz : String → ℚ) (maxGb init : ℚ) (tgt0 : String → EntryState)
    (c : Catalog) (hsz : ∀ fn, 0 ≤ sz fn)
    (hfit : init + ((catalogOrder classify c).map sz).sum ≤ maxGb) :
    ∀ (rl2 : Bool) (init2 : ℚ),
      (copy_datasets_plan classify sz maxGb rl2 init2
          (copy_datasets_plan classify sz maxGb false init tgt0 c).tgt c).tgt
        = (copy_datasets_plan classify sz maxGb false init tgt0 c).tgt := by
  intro rl2 init2
  have hall : ∀ fn ∈ catalogOrder classify c,
      (copy_datasets_plan classify sz maxGb false init tgt0 c).tgt fn
        = EntryState.file := by
    intro fn hfn
    have h := planFiles_all_copied sz maxGb (catalogOrder classify c)
      ⟨init, tgt0, []⟩ (by simpa using hfit) (fun g _ => hsz g) fn
    rw [copy_datasets_plan, h, if_pos hfn]
  exact planFiles_tgt_of_files sz maxGb rl2 (catalogOrder classify c) _ hall

unseal Rat.add List.merge List.mergeSort in
/-- C8, witness. -/
theorem c8_witness :
    (∀ fn : String, (0 : ℚ) ≤ (fun _ => (1 : ℚ)) fn) ∧
    (0 : ℚ) + ((catalogOrder (fun _ => "noise")
      ⟨[("a.h5", 1)], [], []⟩).map (fun _ => (1 : ℚ))).sum ≤ 100 ∧
    (copy_datasets_plan (fun _ => "noise") (fun _ => 1) 100 true 50
        (copy_datasets_plan (fun _ => "noise") (fun _ => 1) 100 false 0
          (fun _ => EntryState.absent) ⟨[("a.h5", 1)], [], []⟩).tgt
        ⟨[("a.h5", 1)], [], []⟩).tgt
      = (copy_datasets_plan (fun _ => "noise") (fun _ => 1) 100 false 0
          (fun _ => EntryState.absent) ⟨[("a.h5", 1)], [], []⟩).tgt :=
  ⟨fun _ => by norm_num, by decide,
    c8_idempotent_second_run (fun _ => "noise") (fun _ => 1) 100 0
      (fun _ => EntryState.absent) ⟨[("a.h5", 1)], [], []⟩
      (fun _ => by norm_num) (by decide) true 50⟩

end CopyDatadir
